import Mathlib

/-!
Verification development for the NetworkSystems-Proxy repository.

The definitions below are shallow embeddings of the C sources:
  - src/src/http.c      (header map, message parse / serialize / receive)
  - src/src/cache.c     (first revision: cache_get / cache_set, entry state machine)
  - src/unnamed/part_012 (request.c: request_is_cacheable, request_get_key)
  - src/unnamed/part_001 (proxy.c: handle_client, proxy_cache_miss_resolver)
  - src/unnamed/part_011 (http.h constants)

Bytes are modelled as Char (code points 0..255 suffice for the octet streams
involved).  C strings are Lean String / List Char.  Machine integers that can
go negative (int) are Int; sizes (size_t) are Nat unless the code can make
them negative through atoi, in which case Int is used and noted.
-/

namespace NSProxy

/-! ## HTTP header map (src/src/http.c)

The C struct http_headers is a growable array of (key, value) pairs, scanned
front-to-back; we model it as a List in insertion order (index 0 = first
inserted, appends go to the back, exactly like headers->headers[count++]).
-/

structure Header where
  key : String
  value : String
deriving DecidableEq, Repr

abbrev Headers := List Header

/-- http_message_header_search (http.c:679): scan from the front, return the
first header whose key compares equal (strcmp, case-sensitive). -/
def http_message_header_search (hs : Headers) (k : String) : Option Header :=
  hs.find? (fun h => h.key == k)

/-- http_message_header_get (http.c:574): linear scan, value of the first
header whose key matches, NULL (none) if absent. -/
def http_message_header_get (hs : Headers) (k : String) : Option String :=
  (hs.find? (fun h => h.key == k)).map Header.value

/-- The search-and-replace path of http_message_header_set_ (http.c:597):
overwrite the value of the first header with this key, or append a new
header at the end of the array if no key matches. -/
def headerReplaceFirst : Headers → String → String → Headers
  | [], k, v => [⟨k, v⟩]
  | h :: t, k, v => if h.key == k then ⟨h.key, v⟩ :: t else h :: headerReplaceFirst t k v

/-- http_message_header_set_ (http.c:597): with search=1 replace-or-append,
with search=0 (the insert-only hint used by http_headers_parse) always
append at the end. -/
def http_message_header_set_ (hs : Headers) (k v : String) (search : Bool) : Headers :=
  if search then headerReplaceFirst hs k v else hs ++ [⟨k, v⟩]

/-- http_message_header_set (http.c:593): public setter, search = 1. -/
def http_message_header_set (hs : Headers) (k v : String) : Headers :=
  headerReplaceFirst hs k v

/-- http_message_header_remove (http.c:652): find the first header with this
key, free it and shift the later entries down by one; absent key leaves the
array unchanged (the C function then returns -1). -/
def http_message_header_remove : Headers → String → Headers
  | [], _ => []
  | h :: t, k => if h.key == k then t else h :: http_message_header_remove t k

/-- http_headers_send (http.c:744): one line "key: value\r\n" per stored
header, in array order, every entry included (duplicates are not merged). -/
def http_headers_send_lines (hs : Headers) : List String :=
  hs.map (fun h => h.key ++ ": " ++ h.value ++ "\r\n")

/-! ## Header-region parsing (http_headers_parse, http.c:448) -/

/-- The characters accepted by C isspace (the value left-trim loop at
http.c:475). -/
def isCSpace (c : Char) : Bool :=
  c = ' ' || c = '\t' || c = '\n' || c = Char.ofNat 11 || c = Char.ofNat 12 || c = '\r'

/-- One header line, split by strtok_r on the first ':' with the value
left-trimmed (http.c:471-477).  strtok skips leading delimiters and returns
NULL on an empty remainder, so a line without a colon, a line of colons, or
a line ending directly after the colon yields no header (the C code guards
key == NULL || val == NULL; note that for a line with no colon the guard is
reached only after an isspace(*NULL) dereference, undefined behaviour that we
model as the guarded skip). -/
def parseHeaderLine (line : List Char) : Option Header :=
  let afterColons := line.dropWhile (fun c => c = ':')
  let key := afterColons.takeWhile (fun c => c ≠ ':')
  let rest := afterColons.dropWhile (fun c => c ≠ ':')
  if key = [] then none
  else
    match rest with
    | [] => none
    | _ :: tl =>
      if tl = [] then none
      else some ⟨String.mk key, String.mk (tl.dropWhile isCSpace)⟩

/-- strtok_r tokenization of the header region on "\r\n" (http.c:456):
maximal nonempty runs of characters that are neither CR nor LF. -/
def isCRLFChar (c : Char) : Bool := c = '\r' || c = '\n'

def tokenizeLines (l : List Char) : List (List Char) :=
  (l.splitOnP isCRLFChar).filter (fun tok => tok ≠ [])

/-- The loop body of http_headers_parse: parse one line and insert it with
the insert-only hint (search = 0); malformed lines are skipped. -/
def insertParsedLine (hs : Headers) (line : List Char) : Headers :=
  match parseHeaderLine line with
  | some h => http_message_header_set_ hs h.key h.value false
  | none => hs

/-- http_headers_parse (http.c:448): the first token is the header line, each
later token is parsed as a header and inserted with the insert-only hint
(search = 0), so duplicate keys are stored twice, in order. -/
def http_headers_parse (region : List Char) : Option (List Char) × Headers :=
  match tokenizeLines region with
  | [] => (none, [])
  | first :: rest => (some first, rest.foldl insertParsedLine [])

/-- The headers a region parses to, written directly: every well-formed
line in token order. -/
def parsedPairs (region : List Char) : Headers :=
  match tokenizeLines region with
  | [] => []
  | _ :: rest => rest.filterMap parseHeaderLine

/-! ## C atoi (used by http_message_recv / http_message_send for
Content-Length).  Skips isspace characters, accepts one optional sign, then
reads a decimal digit prefix; no digits gives 0.  int overflow (undefined in
C) is not modelled: values stay exact. -/

def digitsVal : List Char → Nat → Nat
  | [], acc => acc
  | c :: t, acc => if c.isDigit then digitsVal t (acc * 10 + (c.toNat - 48)) else acc

def atoi (s : String) : Int :=
  match s.data.dropWhile isCSpace with
  | [] => 0
  | c :: t =>
    if c = '-' then -(Int.ofNat (digitsVal t 0))
    else if c = '+' then Int.ofNat (digitsVal t 0)
    else Int.ofNat (digitsVal (c :: t) 0)

/-! ## Serialization (http_message_send, http.c:382) -/

/-- The parts of struct http_message that http_message_send reads.  body is
NULL or a byte buffer; body_f is NULL or an open file (modelled by its
remaining contents); body_len is a size_t that the function overwrites. -/
structure HttpMessage where
  header_line : String
  headers : Headers
  body : Option (List Char)
  body_f : Option (List Char)
  body_len : Int
deriving DecidableEq, Repr

/-- What a call to http_message_send emits and leaves behind. -/
structure SentMessage where
  headers_out : Headers     -- headers after the synthesize-if-absent step
  body_len_out : Int        -- message->body_len after the call
  body_bytes : List Char    -- the body bytes pushed to the socket
deriving DecidableEq, Repr

/-- http_message_send (http.c:382): body_len is overwritten with
atoi(Content-Length) — the stored header, not the body extent, decides how
many body bytes are sent; when the header is absent, body_len becomes 0 and
a Content-Length: 0 header is synthesized.  Then the header line, each
header as "key: value\r\n", a blank line, and — if body_len > 0 — body_len
bytes from the body file (sendfile) or the body buffer are sent.
(body_len is size_t in C; a negative atoi result would convert to a huge
size_t and read out of bounds — undefined behaviour that the claims do not
reach; the model sends nothing in that case.) -/
def http_message_send (m : HttpMessage) : SentMessage :=
  let (len, hs) :=
    match http_message_header_get m.headers "Content-Length" with
    | some v => (atoi v, m.headers)
    | none => ((0 : Int), http_message_header_set m.headers "Content-Length" "0")
  let bodyOut : List Char :=
    if len > 0 then
      match m.body_f with
      | some f => f.take len.toNat
      | none =>
        match m.body with
        | some b => b.take len.toNat
        | none => []
    else []
  ⟨hs, len, bodyOut⟩

/-- The Content-Length step of http_message_recv (http.c:293-300): if the
parsed message carries a Content-Length header, body_len = atoi of its
value; otherwise body_len = 0 and a Content-Length: 0 header is set on the
message. -/
def http_message_recv_finalize (hs : Headers) : Int × Headers :=
  match http_message_header_get hs "Content-Length" with
  | some v => (atoi v, hs)
  | none => ((0 : Int), http_message_header_set hs "Content-Length" "0")

/-! ## Basic lemmas about the header map -/

/-- Number of stored headers carrying a given key. -/
def countKey (hs : Headers) (k : String) : Nat :=
  (hs.filter (fun h => h.key == k)).length

theorem get_nil (q : String) : http_message_header_get [] q = none := rfl

theorem get_cons (h : Header) (t : Headers) (q : String) :
    http_message_header_get (h :: t) q =
      if h.key = q then some h.value else http_message_header_get t q := by
  by_cases hq : h.key = q
  · simp [http_message_header_get, List.find?_cons_of_pos, hq]
  · simp [http_message_header_get, List.find?_cons_of_neg, hq]

theorem countKey_nil (q : String) : countKey [] q = 0 := rfl

theorem countKey_cons (h : Header) (t : Headers) (q : String) :
    countKey (h :: t) q = (if h.key = q then 1 else 0) + countKey t q := by
  by_cases hq : h.key = q
  · simp [countKey, hq]; omega
  · simp [countKey, hq]

theorem replaceFirst_cons (h : Header) (t : Headers) (k v : String) :
    headerReplaceFirst (h :: t) k v =
      if h.key = k then ⟨h.key, v⟩ :: t else h :: headerReplaceFirst t k v := by
  by_cases hk : h.key = k <;> simp [headerReplaceFirst, hk]

theorem remove_cons (h : Header) (t : Headers) (k : String) :
    http_message_header_remove (h :: t) k =
      if h.key = k then t else h :: http_message_header_remove t k := by
  by_cases hk : h.key = k <;> simp [http_message_header_remove, hk]

theorem get_replaceFirst_self (hs : Headers) (k v : String) :
    http_message_header_get (headerReplaceFirst hs k v) k = some v := by
  induction hs with
  | nil => simp [headerReplaceFirst, get_cons, get_nil]
  | cons h t ih =>
    by_cases hk : h.key = k
    · simp [replaceFirst_cons, hk, get_cons]
    · simp [replaceFirst_cons, hk, get_cons, ih]

theorem get_replaceFirst_other (hs : Headers) (k v q : String) (hq : q ≠ k) :
    http_message_header_get (headerReplaceFirst hs k v) q =
      http_message_header_get hs q := by
  induction hs with
  | nil => simp [headerReplaceFirst, get_cons, get_nil, Ne.symm hq]
  | cons h t ih =>
    by_cases hk : h.key = k
    · have hkq : ¬ (h.key = q) := by rw [hk]; exact Ne.symm hq
      simp [replaceFirst_cons, hk, get_cons, hkq, Ne.symm hq]
    · simp [replaceFirst_cons, hk, get_cons, ih]

theorem get_remove_other (hs : Headers) (k q : String) (hq : q ≠ k) :
    http_message_header_get (http_message_header_remove hs k) q =
      http_message_header_get hs q := by
  induction hs with
  | nil => simp [http_message_header_remove]
  | cons h t ih =>
    by_cases hk : h.key = k
    · have hkq : ¬ (h.key = q) := by rw [hk]; exact Ne.symm hq
      simp [remove_cons, hk, get_cons, hkq, Ne.symm hq]
    · simp [remove_cons, hk, get_cons, ih]

theorem countKey_replaceFirst_other (hs : Headers) (k v q : String) (hq : q ≠ k) :
    countKey (headerReplaceFirst hs k v) q = countKey hs q := by
  induction hs with
  | nil => simp [headerReplaceFirst, countKey_cons, countKey_nil, Ne.symm hq]
  | cons h t ih =>
    by_cases hk : h.key = k
    · simp [replaceFirst_cons, hk, countKey_cons]
    · simp [replaceFirst_cons, hk, countKey_cons, ih]

theorem countKey_remove_self (hs : Headers) (k : String) :
    countKey (http_message_header_remove hs k) k = countKey hs k - 1 := by
  induction hs with
  | nil => simp [http_message_header_remove, countKey_nil]
  | cons h t ih =>
    by_cases hk : h.key = k
    · simp [remove_cons, hk, countKey_cons]
    · simp [remove_cons, hk, countKey_cons, ih]

theorem countKey_remove_other (hs : Headers) (k q : String) (hq : q ≠ k) :
    countKey (http_message_header_remove hs k) q = countKey hs q := by
  induction hs with
  | nil => simp [http_message_header_remove]
  | cons h t ih =>
    by_cases hk : h.key = k
    · have hkq : ¬ (h.key = q) := by rw [hk]; exact Ne.symm hq
      simp [remove_cons, hk, countKey_cons, hkq, Ne.symm hq]
    · simp [remove_cons, hk, countKey_cons, ih]

theorem get_append_first (l1 l2 : Headers) (k v : String)
    (h1 : ∀ h ∈ l1, h.key ≠ k) :
    http_message_header_get (l1 ++ ⟨k, v⟩ :: l2) k = some v := by
  induction l1 with
  | nil => simp [get_cons]
  | cons h t ih =>
    have hk : ¬ (h.key = k) := h1 h (by simp)
    have ht : ∀ x ∈ t, Header.key x ≠ k := fun x hx => h1 x (by simp [hx])
    simpa [get_cons, hk] using ih ht

theorem parse_fold_insert_only (lines : List (List Char)) (acc : Headers) :
    lines.foldl insertParsedLine acc = acc ++ lines.filterMap parseHeaderLine := by
  induction lines generalizing acc with
  | nil => simp
  | cons line rest ih =>
    cases hp : parseHeaderLine line with
    | none =>
      have harg : insertParsedLine acc line = acc := by
        simp [insertParsedLine, hp]
      rw [List.foldl_cons, harg, ih, List.filterMap_cons, hp]
    | some h =>
      have harg : insertParsedLine acc line = acc ++ [h] := by
        simp [insertParsedLine, hp, http_message_header_set_]
      rw [List.foldl_cons, harg, ih, List.filterMap_cons, hp]
      simp

end NSProxy

namespace NSProxy

theorem get_set_self (hs : Headers) (k v : String) :
    http_message_header_get (http_message_header_set hs k v) k = some v :=
  get_replaceFirst_self hs k v

theorem get_set_other (hs : Headers) (k v q : String) (hq : q ≠ k) :
    http_message_header_get (http_message_header_set hs k v) q =
      http_message_header_get hs q :=
  get_replaceFirst_other hs k v q hq

theorem countKey_set_other (hs : Headers) (k v q : String) (hq : q ≠ k) :
    countKey (http_message_header_set hs k v) q = countKey hs q :=
  countKey_replaceFirst_other hs k v q hq

/-! ## Worker header rewriting (handle_client, src/unnamed/part_001:168-176) -/

/-- The header rewriting handle_client applies to the client request before
any upstream use, in source order: set Connection: close, set Forwarded to
the client presentation IP, set Via, then remove the three Proxy-* headers
(each removal deletes at most the first matching occurrence). -/
def handle_client_rewrite (hs : Headers) (ip : String) : Headers :=
  http_message_header_remove
    (http_message_header_remove
      (http_message_header_remove
        (http_message_header_set
          (http_message_header_set
            (http_message_header_set hs "Connection" "close")
            "Forwarded" ip)
          "Via" "1.1 MatthewTetaProxy")
        "Proxy-Connection")
      "Proxy-Authorization")
    "Proxy-Authenticate"

/-- Claim C5, counterexample: a message carrying the duplicate header lines
"A: 1" and "A: 2" parses to a map on which get("A") returns "1", the value
of the FIRST occurrence (not the most recent), and serializing the
unmodified message emits both occurrences instead of collapsing them. -/
theorem C5_counterexample :
    http_message_header_get
        (http_headers_parse ("GET / HTTP/1.1\r\nA: 1\r\nA: 2\r\n\r\n").data).2
        "A" = some "1" ∧
    ¬ (http_message_header_get
        (http_headers_parse ("GET / HTTP/1.1\r\nA: 1\r\nA: 2\r\n\r\n").data).2
        "A" = some "2") ∧
    http_headers_send_lines
        (http_headers_parse ("GET / HTTP/1.1\r\nA: 1\r\nA: 2\r\n\r\n").data).2
      = ["A: 1\r\n", "A: 2\r\n"] := by
  decide

/-- Claim C5, amended: for every received message, the parsed header map
stores every well-formed header line in insertion order — duplicate keys
land twice, both writes preserved; get(k) returns the value of the FIRST
occurrence of k; and serializing the unmodified message emits one line per
stored header in insertion order, so duplicates are preserved rather than
collapsed. -/
theorem C5_amended_duplicate_headers :
    (∀ region : List Char, (http_headers_parse region).2 = parsedPairs region) ∧
    (∀ (l1 l2 : Headers) (k v : String), (∀ h ∈ l1, h.key ≠ k) →
      http_message_header_get (l1 ++ ⟨k, v⟩ :: l2) k = some v) ∧
    (∀ hs : Headers, http_headers_send_lines hs =
      hs.map (fun h => h.key ++ ": " ++ h.value ++ "\r\n")) := by
  refine ⟨?_, get_append_first, fun _ => rfl⟩
  intro region
  unfold http_headers_parse parsedPairs
  cases tokenizeLines region with
  | nil => rfl
  | cons first rest => simpa using parse_fold_insert_only rest []

/-- Witness for C5_amended_duplicate_headers at a concrete duplicate map. -/
theorem C5_witness :
    http_message_header_get [⟨"A", "1"⟩, ⟨"A", "2"⟩] "A" = some "1" :=
  C5_amended_duplicate_headers.2.1 [] [⟨"A", "2"⟩] "A" "1" (by simp)

/-- Claim C8, counterexample: a request carrying two Proxy-Connection headers
still carries one of them after the worker rewriting, because remove only
deletes the first occurrence. -/
theorem C8_counterexample :
    handle_client_rewrite
        [⟨"Proxy-Connection", "keep-alive"⟩, ⟨"Proxy-Connection", "x"⟩]
        "1.2.3.4"
      = [⟨"Proxy-Connection", "x"⟩, ⟨"Connection", "close"⟩,
         ⟨"Forwarded", "1.2.3.4"⟩, ⟨"Via", "1.1 MatthewTetaProxy"⟩] ∧
    countKey
        (handle_client_rewrite
          [⟨"Proxy-Connection", "keep-alive"⟩, ⟨"Proxy-Connection", "x"⟩]
          "1.2.3.4")
        "Proxy-Connection" = 1 := by
  decide

/-- Claim C8, amended: after the worker rewriting the request always carries
Connection: close (get returns "close"); each removal strips only the first
occurrence of its key, so whenever each of Proxy-Connection,
Proxy-Authorization and Proxy-Authenticate occurs at most once in the
received request, the rewritten request carries none of them. -/
theorem C8_amended_header_rewrite (hs : Headers) (ip : String)
    (h1 : countKey hs "Proxy-Connection" ≤ 1)
    (h2 : countKey hs "Proxy-Authorization" ≤ 1)
    (h3 : countKey hs "Proxy-Authenticate" ≤ 1) :
    http_message_header_get (handle_client_rewrite hs ip) "Connection"
        = some "close" ∧
    countKey (handle_client_rewrite hs ip) "Proxy-Connection" = 0 ∧
    countKey (handle_client_rewrite hs ip) "Proxy-Authorization" = 0 ∧
    countKey (handle_client_rewrite hs ip) "Proxy-Authenticate" = 0 := by
  unfold handle_client_rewrite
  refine ⟨?_, ?_, ?_, ?_⟩
  · rw [get_remove_other _ "Proxy-Authenticate" "Connection" (by decide),
        get_remove_other _ "Proxy-Authorization" "Connection" (by decide),
        get_remove_other _ "Proxy-Connection" "Connection" (by decide),
        get_set_other _ "Via" _ "Connection" (by decide),
        get_set_other _ "Forwarded" _ "Connection" (by decide),
        get_set_self]
  · rw [countKey_remove_other _ "Proxy-Authenticate" "Proxy-Connection" (by decide),
        countKey_remove_other _ "Proxy-Authorization" "Proxy-Connection" (by decide),
        countKey_remove_self,
        countKey_set_other _ "Via" _ "Proxy-Connection" (by decide),
        countKey_set_other _ "Forwarded" _ "Proxy-Connection" (by decide),
        countKey_set_other _ "Connection" _ "Proxy-Connection" (by decide)]
    omega
  · rw [countKey_remove_other _ "Proxy-Authenticate" "Proxy-Authorization" (by decide),
        countKey_remove_self,
        countKey_remove_other _ "Proxy-Connection" "Proxy-Authorization" (by decide),
        countKey_set_other _ "Via" _ "Proxy-Authorization" (by decide),
        countKey_set_other _ "Forwarded" _ "Proxy-Authorization" (by decide),
        countKey_set_other _ "Connection" _ "Proxy-Authorization" (by decide)]
    omega
  · rw [countKey_remove_self,
        countKey_remove_other _ "Proxy-Authorization" "Proxy-Authenticate" (by decide),
        countKey_remove_other _ "Proxy-Connection" "Proxy-Authenticate" (by decide),
        countKey_set_other _ "Via" _ "Proxy-Authenticate" (by decide),
        countKey_set_other _ "Forwarded" _ "Proxy-Authenticate" (by decide),
        countKey_set_other _ "Connection" _ "Proxy-Authenticate" (by decide)]
    omega

/-- Witness for C8_amended_header_rewrite at a concrete request. -/
theorem C8_witness :
    http_message_header_get
        (handle_client_rewrite [⟨"Proxy-Connection", "keep-alive"⟩] "1.2.3.4")
        "Connection" = some "close" ∧
    countKey (handle_client_rewrite [⟨"Proxy-Connection", "keep-alive"⟩] "1.2.3.4")
        "Proxy-Connection" = 0 ∧
    countKey (handle_client_rewrite [⟨"Proxy-Connection", "keep-alive"⟩] "1.2.3.4")
        "Proxy-Authorization" = 0 ∧
    countKey (handle_client_rewrite [⟨"Proxy-Connection", "keep-alive"⟩] "1.2.3.4")
        "Proxy-Authenticate" = 0 :=
  C8_amended_header_rewrite [⟨"Proxy-Connection", "keep-alive"⟩] "1.2.3.4"
    (by decide) (by decide) (by decide)

/-- Claim C9: when the parsed message carries no Content-Length header,
http_message_recv sets the body length to zero and synthesizes
Content-Length: 0 on the message, so get("Content-Length") afterwards
returns "0". -/
theorem C9_missing_content_length (hs : Headers)
    (h : http_message_header_get hs "Content-Length" = none) :
    (http_message_recv_finalize hs).1 = 0 ∧
    http_message_header_get (http_message_recv_finalize hs).2 "Content-Length"
      = some "0" := by
  unfold http_message_recv_finalize
  rw [h]
  exact ⟨rfl, get_set_self hs _ _⟩

/-- Witness for C9_missing_content_length at a concrete header map. -/
theorem C9_witness :
    (http_message_recv_finalize [⟨"Host", "example"⟩]).1 = 0 ∧
    http_message_header_get (http_message_recv_finalize [⟨"Host", "example"⟩]).2
        "Content-Length" = some "0" :=
  C9_missing_content_length [⟨"Host", "example"⟩] (by decide)

/-- Claim C6, counterexample: a message whose body is the 5 bytes HELLO but
whose stored Content-Length header says 3 is serialized with exactly 3 body
bytes pushed to the socket, and the Content-Length header is sent as "3"
unchanged — the header, not the body extent, is authoritative. -/
theorem C6_counterexample :
    (http_message_send
        ⟨"HTTP/1.1 200 OK", [⟨"Content-Length", "3"⟩],
         some ("HELLO").data, none, 5⟩).body_bytes = ("HEL").data ∧
    ¬ ((http_message_send
        ⟨"HTTP/1.1 200 OK", [⟨"Content-Length", "3"⟩],
         some ("HELLO").data, none, 5⟩).body_bytes.length = 5) ∧
    http_message_header_get
        (http_message_send
          ⟨"HTTP/1.1 200 OK", [⟨"Content-Length", "3"⟩],
           some ("HELLO").data, none, 5⟩).headers_out
        "Content-Length" = some "3" := by
  decide

/-- Claim C6, amended: before sending, http_message_send overwrites the
message body length with atoi of the stored Content-Length header — the
header is authoritative over the body extent: with a header valuing n (and a
body buffer of at least n bytes), exactly n body bytes (the body prefix) are
sent and the headers go out unchanged; with no Content-Length header, zero
body bytes are sent and Content-Length: 0 is synthesized. -/
theorem C6_amended_content_length (m : HttpMessage) :
    (∀ (v : String) (b : List Char) (n : Nat),
      http_message_header_get m.headers "Content-Length" = some v →
      atoi v = (n : Int) → m.body = some b → m.body_f = none → n ≤ b.length →
        (http_message_send m).body_len_out = (n : Int) ∧
        (http_message_send m).body_bytes = b.take n ∧
        (http_message_send m).body_bytes.length = n ∧
        (http_message_send m).headers_out = m.headers) ∧
    (http_message_header_get m.headers "Content-Length" = none →
        (http_message_send m).body_len_out = 0 ∧
        (http_message_send m).body_bytes = [] ∧
        http_message_header_get (http_message_send m).headers_out
          "Content-Length" = some "0") := by
  constructor
  · intro v b n hv ha hb hf hn
    have hsend : http_message_send m = ⟨m.headers, (n : Int), b.take n⟩ := by
      unfold http_message_send
      rw [hv]
      simp only [ha, hb, hf]
      by_cases hpos : ((n : Int) > 0)
      · simp [if_pos hpos]
        exact fun h => Or.inl h
      · have hz : n = 0 := by omega
        subst hz
        simp [if_neg hpos]
    rw [hsend]
    refine ⟨rfl, rfl, ?_, rfl⟩
    simp only [List.length_take]
    omega
  · intro hnone
    unfold http_message_send
    rw [hnone]
    refine ⟨rfl, by simp, get_set_self m.headers _ _⟩

/-- Witness for C6_amended_content_length at a concrete message. -/
theorem C6_witness :
    (http_message_send
        ⟨"HTTP/1.1 200 OK", [⟨"Content-Length", "3"⟩],
         some ("HELLO").data, none, 5⟩).body_bytes = ("HELLO").data.take 3 :=
  ((C6_amended_content_length
      ⟨"HTTP/1.1 200 OK", [⟨"Content-Length", "3"⟩],
       some ("HELLO").data, none, 5⟩).1
    "3" ("HELLO").data 3 (by decide) (by decide) rfl rfl (by decide)).2.1

end NSProxy

namespace NSProxy

/-! ## Receiving the header region (http_message_recv, http.c:188-278)

Constants from src/unnamed/part_011: MESSAGE_CHUNK_SIZE = 1024 and
HTTP_MESSAGE_MAX_HEADER_SIZE = 8192.  The loop is driven by the bytes the
client socket delivers; we model the socket deterministically: the whole
stream is available and each recv returns min(MESSAGE_CHUNK_SIZE, bytes not
yet consumed).  Poll timeouts and EINTR are real-time behaviour outside the
model.
-/

/-- Occurrence test for the four-byte header terminator CR LF CR LF at the
head of a byte list (what strstr at http.c:268 looks for). -/
def isTermAt (l : List Char) : Bool :=
  decide (l.take 4 = ['\r', '\n', '\r', '\n'])

/-- Index of the first occurrence of the header terminator (strstr). -/
def findTerm : List Char → Option Nat
  | [] => none
  | c :: t => if isTermAt (c :: t) then some 0 else (findTerm t).map (· + 1)

inductive RecvHeaderResult where
  | tooLarge            -- "Message is too large, closing connection" (http.c:200-205)
  | peerClosed          -- recv returned 0 (http.c:248-252)
  | ok (headerLen : Nat)  -- terminator found; header region length
deriving DecidableEq, Repr

/-- The header-reading loop of http_message_recv (http.c:199-278).  At each
iteration the size check fires on the buffer size accumulated so far (one
chunk per iteration), BEFORE this iteration grows it by MESSAGE_CHUNK_SIZE;
then up to one chunk is read and the whole buffer is scanned for the
terminator. -/
def recvHeaderAux (stream : List Char) (msgSize msgLen : Nat) : RecvHeaderResult :=
  if msgSize > 8192 then .tooLarge
  else
    let bytesRead := min 1024 (stream.length - msgLen)
    if bytesRead = 0 then .peerClosed
    else
      match findTerm (stream.take (msgLen + bytesRead)) with
      | some p => .ok (p + 4)
      | none => recvHeaderAux stream (msgSize + 1024) (msgLen + bytesRead)
termination_by stream.length - msgLen
decreasing_by
  simp_wf
  omega

/-- http_message_recv header phase, started with an empty buffer. -/
def http_message_recv_header (stream : List Char) : RecvHeaderResult :=
  recvHeaderAux stream 0 0

theorem isTermAt_nil : isTermAt [] = false := by decide

theorem isTermAt_cons_ne (c : Char) (l : List Char) (hc : c ≠ '\r') :
    isTermAt (c :: l) = false := by
  simp [isTermAt, List.take_cons]
  intro h
  exact absurd h hc

theorem isTermAt_four_le (l : List Char) (h : isTermAt l = true) : 4 ≤ l.length := by
  simp only [isTermAt, decide_eq_true_eq] at h
  have : (l.take 4).length = 4 := by rw [h]; rfl
  simp only [List.length_take] at this
  omega

theorem findTerm_some_iff (l : List Char) (p : Nat) :
    findTerm l = some p ↔
      (isTermAt (l.drop p) = true ∧ ∀ q, q < p → isTermAt (l.drop q) = false) := by
  induction l generalizing p with
  | nil =>
    simp [findTerm, isTermAt_nil, List.drop_nil]
  | cons c t ih =>
    by_cases hterm : isTermAt (c :: t) = true
    · simp only [findTerm, if_pos hterm]
      constructor
      · intro h
        have hp : p = 0 := by
          have := Option.some.injEq 0 p
          simp at h
          omega
        subst hp
        exact ⟨hterm, fun q hq => absurd hq (by omega)⟩
      · intro ⟨h1, h2⟩
        cases p with
        | zero => rfl
        | succ p0 =>
          have := h2 0 (by omega)
          rw [List.drop_zero] at this
          rw [this] at hterm
          exact absurd hterm (by simp)
    · simp only [findTerm, if_neg hterm]
      cases p with
      | zero =>
        simp only [List.drop]
        constructor
        · intro h
          cases hft : findTerm t with
          | none => rw [hft] at h; simp at h
          | some q => rw [hft] at h; simp at h
        · intro ⟨h1, _⟩
          exact absurd h1 hterm
      | succ p0 =>
        constructor
        · intro h
          cases hft : findTerm t with
          | none => rw [hft] at h; simp at h
          | some q =>
            rw [hft] at h
            rw [Option.map_some'] at h
            have hq : q = p0 := by
              have h2 := Option.some.inj h
              omega
            subst hq
            have := (ih q).mp hft
            refine ⟨this.1, fun q hq => ?_⟩
            cases q with
            | zero => simpa using hterm
            | succ q0 =>
              simp only [List.drop]
              exact this.2 q0 (by omega)
        · intro ⟨h1, h2⟩
          have ht : findTerm t = some p0 := by
            rw [ih p0]
            refine ⟨h1, fun q hq => ?_⟩
            have := h2 (q + 1) (by omega)
            simpa using this
          rw [ht]
          rfl

theorem findTerm_none_iff (l : List Char) :
    findTerm l = none ↔ ∀ q, isTermAt (l.drop q) = false := by
  induction l with
  | nil => simp [findTerm, isTermAt_nil]
  | cons c t ih =>
    by_cases hterm : isTermAt (c :: t) = true
    · simp only [findTerm, if_pos hterm]
      constructor
      · intro h; exact absurd h (by simp)
      · intro h
        have := h 0
        simp [List.drop] at this
        rw [this] at hterm
        exact absurd hterm (by simp)
    · simp only [findTerm, if_neg hterm]
      constructor
      · intro h q
        have hft : findTerm t = none := by
          cases hft : findTerm t with
          | none => rfl
          | some q0 => rw [hft] at h; simp at h
        cases q with
        | zero => simpa using hterm
        | succ q0 => simp only [List.drop]; exact (ih.mp hft) q0
      · intro h
        have hft : findTerm t = none := by
          rw [ih]
          intro q
          have := h (q + 1)
          simpa using this
        rw [hft]
        rfl

theorem isTermAt_take (l : List Char) (n q : Nat) :
    isTermAt ((l.take n).drop q) = true ↔
      (q + 4 ≤ n ∧ isTermAt (l.drop q) = true) := by
  rw [List.drop_take]
  constructor
  · intro h
    have hlen := isTermAt_four_le _ h
    simp only [List.length_take, List.length_drop] at hlen
    have h4 : 4 ≤ n - q := by omega
    have : (l.drop q).take 4 = ((l.drop q).take (n - q)).take 4 := by
      rw [List.take_take, Nat.min_eq_left h4]
    constructor
    · omega
    · simp only [isTermAt, decide_eq_true_eq] at h ⊢
      rw [this, h]
  · intro ⟨h1, h2⟩
    simp only [isTermAt, decide_eq_true_eq] at h2 ⊢
    rw [List.take_take, Nat.min_eq_left (by omega : 4 ≤ n - q)]
    exact h2

theorem findTerm_take_of_le (l : List Char) (p n : Nat)
    (h : findTerm l = some p) (hn : p + 4 ≤ n) :
    findTerm (l.take n) = some p := by
  have hh := (findTerm_some_iff l p).mp h
  rw [findTerm_some_iff]
  constructor
  · rw [isTermAt_take]
    exact ⟨hn, hh.1⟩
  · intro q hq
    cases hx : isTermAt ((l.take n).drop q) with
    | false => rfl
    | true =>
      rw [isTermAt_take] at hx
      have hfalse := hh.2 q hq
      rw [hfalse] at hx
      simp at hx

theorem findTerm_take_none_of_lt (l : List Char) (p n : Nat)
    (h : findTerm l = some p) (hn : n < p + 4) :
    findTerm (l.take n) = none := by
  have hh := (findTerm_some_iff l p).mp h
  rw [findTerm_none_iff]
  intro q
  cases hx : isTermAt ((l.take n).drop q) with
  | false => rfl
  | true =>
    rw [isTermAt_take] at hx
    have hqp : q < p := by omega
    have := hh.2 q hqp
    rw [this] at hx
    simp at hx

theorem findTerm_take_none_mono (l : List Char) (n m : Nat)
    (h : findTerm (l.take n) = none) (hm : m ≤ n) :
    findTerm (l.take m) = none := by
  rw [findTerm_none_iff] at h ⊢
  intro q
  cases hx : isTermAt ((l.take m).drop q) with
  | false => rfl
  | true =>
    rw [isTermAt_take] at hx
    have : isTermAt ((l.take n).drop q) = true := by
      rw [isTermAt_take]
      exact ⟨by omega, hx.2⟩
    rw [h q] at this
    simp at this

theorem findTerm_some_bound (l : List Char) (p : Nat)
    (h : findTerm l = some p) : p + 4 ≤ l.length := by
  have hh := (findTerm_some_iff l p).mp h
  have := isTermAt_four_le _ hh.1
  simp only [List.length_drop] at this
  omega

end NSProxy

namespace NSProxy

theorem recvAux_size_exceeded (stream : List Char) (msgSize msgLen : Nat)
    (h : msgSize > 8192) : recvHeaderAux stream msgSize msgLen = .tooLarge := by
  rw [recvHeaderAux]
  simp [if_pos h]

theorem recvAux_ok_aux (stream : List Char) (p : Nat)
    (h : findTerm stream = some p) (hp : p + 4 ≤ 9216) :
    ∀ (m j : Nat), p + 4 - 1024 * j ≤ m → 1024 * j < p + 4 →
      recvHeaderAux stream (1024 * j) (1024 * j) = .ok (p + 4) := by
  have hlen := findTerm_some_bound stream p h
  intro m
  induction m with
  | zero => intro j hm hj; omega
  | succ m ih =>
    intro j hm hj
    rw [recvHeaderAux]
    have hguard : ¬ (1024 * j > 8192) := by omega
    rw [if_neg hguard]
    have hbr : ¬ (min 1024 (stream.length - 1024 * j) = 0) := by omega
    rw [if_neg hbr]
    by_cases hfound : p + 4 ≤ 1024 * j + min 1024 (stream.length - 1024 * j)
    · rw [findTerm_take_of_le stream p _ h hfound]
    · rw [findTerm_take_none_of_lt stream p _ h (by omega)]
      have hbr1024 : min 1024 (stream.length - 1024 * j) = 1024 := by omega
      rw [hbr1024]
      have heq : 1024 * j + 1024 = 1024 * (j + 1) := by ring
      rw [heq]
      exact ih (j + 1) (by omega) (by omega)

/-- Acceptance side of the header-size check: a stream whose first header
terminator ends within 9216 bytes is accepted with the exact header region
length — in particular no header region of 8192 bytes or fewer is ever
rejected by the size check. -/
theorem recv_header_ok (stream : List Char) (p : Nat)
    (h : findTerm stream = some p) (hp : p + 4 ≤ 9216) :
    http_message_recv_header stream = .ok (p + 4) := by
  have := recvAux_ok_aux stream p h hp (p + 4) 0 (by omega) (by omega)
  simpa [http_message_recv_header] using this

theorem recvAux_tooLarge_aux (stream : List Char)
    (hterm : findTerm (stream.take 9216) = none) (hlen : 8192 < stream.length) :
    ∀ (m j : Nat), 8 - j ≤ m → j ≤ 8 →
      recvHeaderAux stream (1024 * j) (1024 * j) = .tooLarge := by
  have hstep : ∀ j, j ≤ 8 →
      (∀ hnext : j + 1 ≤ 8,
        recvHeaderAux stream (1024 * (j + 1)) (1024 * (j + 1)) = .tooLarge) →
      recvHeaderAux stream (1024 * j) (1024 * j) = .tooLarge := by
    intro j hj ihnext
    rw [recvHeaderAux]
    have hguard : ¬ (1024 * j > 8192) := by omega
    rw [if_neg hguard]
    have hbr : ¬ (min 1024 (stream.length - 1024 * j) = 0) := by omega
    rw [if_neg hbr]
    have hcap : 1024 * j + min 1024 (stream.length - 1024 * j) ≤ 9216 := by omega
    rw [findTerm_take_none_mono stream 9216 _ hterm hcap]
    by_cases hfin : j = 8
    · subst hfin
      exact recvAux_size_exceeded stream _ _ (by omega)
    · have hb : min 1024 (stream.length - 1024 * j) = 1024 := by omega
      rw [hb]
      have heq : 1024 * j + 1024 = 1024 * (j + 1) := by ring
      rw [heq]
      exact ihnext (by omega)
  intro m
  induction m with
  | zero =>
    intro j hm hj
    have hj8 : j = 8 := by omega
    subst hj8
    exact hstep 8 (by omega) (fun hnext => absurd hnext (by omega))
  | succ m ih =>
    intro j hm hj
    exact hstep j hj (fun hnext => ih (j + 1) (by omega) hnext)

/-- Rejection side of the header-size check: when no terminator lies in the
first 9216 bytes of a stream longer than 8192 bytes, the loop gives up with
the too-large error. -/
theorem recv_header_tooLarge (stream : List Char)
    (hterm : findTerm (stream.take 9216) = none) (hlen : 8192 < stream.length) :
    http_message_recv_header stream = .tooLarge := by
  have := recvAux_tooLarge_aux stream hterm hlen 8 0 (by omega) (by omega)
  simpa [http_message_recv_header] using this

theorem findTerm_replicate_term (n : Nat) :
    findTerm (List.replicate n 'a' ++ ['\r', '\n', '\r', '\n']) = some n := by
  induction n with
  | zero => decide
  | succ n ih =>
    have hrep : List.replicate (n + 1) 'a' ++ ['\r', '\n', '\r', '\n'] =
        'a' :: (List.replicate n 'a' ++ ['\r', '\n', '\r', '\n']) := by
      simp [List.replicate_succ]
    rw [hrep]
    rw [findTerm, if_neg (by rw [isTermAt_cons_ne 'a' _ (by decide)]; simp)]
    rw [ih]
    rfl

/-! ## Request model (request.c, src/unnamed/part_012:435-507) and the
worker pipeline (handle_client, src/unnamed/part_001:128-244) -/

/-- struct request (src/src/request.h): fields produced by
request_header_parse; NULL pointers are none, port and https are int with
-1 for unset. -/
structure Request where
  method : Option String
  host : Option String
  uri : Option String
  version : Option String
  query : Option String
  port : Int
  https : Int
deriving DecidableEq, Repr

/-- request_is_cacheable (part_012:468): GET with version, host and uri all
set; the Cache-Control: no-cache test is commented out in the source. -/
def request_is_cacheable (r : Request) : Bool :=
  if r.method ≠ some "GET" then false
  else if r.version = none then false
  else if r.host = none then false
  else if r.uri = none then false
  else true

/-- request_get_key (part_012:501): empty key for a non-cacheable request,
otherwise snprintf(key, len, "%s%s", host, uri) — host and uri concatenated
with no separator, truncated to the 1023 characters that fit the caller's
1024-byte buffer. -/
def request_get_key (r : Request) : String :=
  if request_is_cacheable r then
    String.mk (((r.host.getD "") ++ (r.uri.getD "")).data.take 1023)
  else ""

/-- Externally visible actions of one handle_client run. -/
inductive ProxyEvent where
  | sendError (code : Nat)       -- response_send_error(connection, code, _)
  | directFetch                  -- response_fetch(request): origin fetch bypassing the cache
  | cacheLookup (key : String)   -- cache_get(cache, key, ..., proxy_cache_miss_resolver, request)
  | sendResponse                 -- response_send(response, connection)
deriving DecidableEq, Repr

def isCacheLookup : ProxyEvent → Bool
  | .cacheLookup _ => true
  | _ => false

def isFetchEvent : ProxyEvent → Bool
  | .directFetch => true
  | .cacheLookup _ => true
  | _ => false

/-- Control flow of handle_client (part_001:128-244).  Inputs: the parse
outcome of the received request (request_parse returns NULL when
http_message_recv failed or the request line does not match), the blocklist
verdict, and whether the origin fetch / cache read delivers a response.
The branch at part_001:181-182 is literally

    // if (strlen(key) == 0) {
    if (1) {

so the direct-fetch branch is taken unconditionally and the cache branch is
dead code; the model embeds that test as written. -/
def handle_client (req : Option Request) (blocked : Bool)
    (fetchOk : Bool) (cacheOk : Bool) : List ProxyEvent :=
  match req with
  | none => [.sendError 400]
  | some r =>
    if blocked then [.sendError 403]
    else
      let key := request_get_key r
      if (1 : Int) ≠ 0 then
        .directFetch :: (if fetchOk then [.sendResponse] else [.sendError 404])
      else
        .cacheLookup key ::
          (if cacheOk then [.sendResponse] else [.sendError 504])

end NSProxy

namespace NSProxy

/-- Claim C1: the worker never reaches cache_get.  For a parsed, unblocked,
cacheable GET whose derived key "example/" is non-empty, the branch at
part_001:181-182 — literally if (1), with the intended strlen(key) == 0 test
commented out — sends the run down the direct response_fetch path, and no
cache_get invocation occurs; the claim requires a cache_get call with this
key. -/
theorem C1_direct_fetch_despite_nonempty_key :
    request_get_key ⟨some "GET", some "example", some "/", some "HTTP/1.1",
        none, -1, 0⟩ = "example/" ∧
    ¬ (request_get_key ⟨some "GET", some "example", some "/", some "HTTP/1.1",
        none, -1, 0⟩ = "") ∧
    handle_client (some ⟨some "GET", some "example", some "/", some "HTTP/1.1",
        none, -1, 0⟩) false true true = [.directFetch, .sendResponse] ∧
    (handle_client (some ⟨some "GET", some "example", some "/", some "HTTP/1.1",
        none, -1, 0⟩) false true true).all (fun e => !(isCacheLookup e)) = true := by
  decide

/-- Claim C7, counterexample: a request stream that is a single header region
of 8193 bytes — one byte over the 8192-byte cap the claim states — is
accepted by http_message_recv with header length 8193, not rejected. -/
theorem C7_counterexample :
    (List.replicate 8189 'a' ++ ['\r', '\n', '\r', '\n']).length = 8193 ∧
    http_message_recv_header (List.replicate 8189 'a' ++ ['\r', '\n', '\r', '\n'])
      = .ok 8193 ∧
    ¬ (http_message_recv_header
        (List.replicate 8189 'a' ++ ['\r', '\n', '\r', '\n'])
      = .tooLarge) := by
  have hft := findTerm_replicate_term 8189
  have hok := recv_header_ok _ 8189 hft (by omega)
  refine ⟨?_, hok, by rw [hok]; simp⟩
  rw [List.length_append, List.length_replicate]
  rfl

/-- Claim C7, amended: the size check fires on the receive buffer, which has
grown by one 1024-byte chunk per iteration, BEFORE the chunk that would
exceed 8192 is counted — so a stream whose first CRLF CRLF terminator ends
within 9216 bytes is accepted with its exact header length (in particular no
header region of 8192 bytes or fewer is rejected), and a stream longer than
8192 bytes with no terminator in its first 9216 bytes is rejected as too
large.  When message receive fails, handle_client answers 400 and performs
neither an origin fetch nor a cache lookup, so the cache resolver is never
invoked. -/
theorem C7_amended_header_size_check :
    (∀ (stream : List Char) (p : Nat), findTerm stream = some p → p + 4 ≤ 9216 →
      http_message_recv_header stream = .ok (p + 4)) ∧
    (∀ stream : List Char, findTerm (stream.take 9216) = none →
      8192 < stream.length → http_message_recv_header stream = .tooLarge) ∧
    (∀ blocked fetchOk cacheOk : Bool,
      handle_client none blocked fetchOk cacheOk = [.sendError 400] ∧
      (handle_client none blocked fetchOk cacheOk).all
        (fun e => !(isFetchEvent e)) = true) := by
  refine ⟨recv_header_ok, recv_header_tooLarge, ?_⟩
  intro blocked fetchOk cacheOk
  exact ⟨rfl, rfl⟩

theorem findTerm_replicate_none (n : Nat) :
    findTerm (List.replicate n 'a') = none := by
  induction n with
  | zero => rfl
  | succ n ih =>
    rw [List.replicate_succ, findTerm,
      if_neg (by rw [isTermAt_cons_ne 'a' _ (by decide)]; simp)]
    rw [ih]
    rfl

/-- Witness for C7_amended_header_size_check: the minimal stream consisting
of just the terminator is accepted with header length 4, and a 9217-byte
stream of letters with no terminator is rejected as too large. -/
theorem C7_witness :
    http_message_recv_header ['\r', '\n', '\r', '\n'] = .ok 4 ∧
    http_message_recv_header (List.replicate 9217 'a') = .tooLarge :=
  ⟨C7_amended_header_size_check.1 ['\r', '\n', '\r', '\n'] 0 (by decide) (by omega),
   C7_amended_header_size_check.2.1 (List.replicate 9217 'a')
     (by
       rw [List.take_replicate]
       have hmin : min 9216 9217 = 9216 := by norm_num
       rw [hmin]
       exact findTerm_replicate_none 9216)
     (by rw [List.length_replicate]; norm_num)⟩

end NSProxy

namespace NSProxy

/-! ## Cache (src/src/cache.c, first revision, lines 1-400)

The bucket table: cache.c hashes the key's MD5 fingerprint to one of 2048
buckets and scans that bucket's linked list comparing full keys with strcmp;
a key always hashes to the same bucket, so the table behaves as one
association list keyed on the key string (spec §9 makes this replacement
explicit: "Bucketed linked lists in the cache index can be replaced by any
... map keyed on the string key; the fingerprint is used only to derive the
on-disk filename").  We model the table as the concatenation of the bucket
lists, with new records prepended exactly as cache_get prepends them to the
bucket head.

Time: time(NULL) is passed in as `now`; the C expression
time(NULL) - timestamp > ttl is int/time_t arithmetic, modelled on Int.
-/

inductive CacheEntryStatus where
  | inProgress  -- CACHE_ENTRY_STATUS_IN_PROGRESS (worker fetching from origin)
  | ok          -- CACHE_ENTRY_STATUS_OK (valid; timestamp still to check)
  | invalid     -- CACHE_ENTRY_STATUS_INVALID (stale, unclaimed)
deriving DecidableEq, Repr

/-- cache_entry_storage (cache.c:38) together with the embedded
cache_entry_t key/path fields. -/
structure CacheEntryRec where
  key : String
  path : String
  status : CacheEntryStatus
  num_users : Int
  timestamp : Nat
deriving DecidableEq, Repr

/-- The cache directory: file path to file bytes. -/
abbrev FileSys := List (String × List Char)

def fsRead (fs : FileSys) (p : String) : Option (List Char) :=
  (fs.find? (fun e => e.1 == p)).map Prod.snd

def fsWrite : FileSys → String → List Char → FileSys
  | [], p, d => [(p, d)]
  | e :: t, p, d => if e.1 == p then (p, d) :: t else e :: fsWrite t p d

/-- struct cache (cache.c:51): directory path, ttl, total user count, and
the hash table (flattened, see the section comment). -/
structure CacheState where
  dir : String
  ttl : Nat
  entries : List CacheEntryRec
  fs : FileSys
  num_users : Int
deriving DecidableEq, Repr

/-- Modelled from the spec: md5String and the hex conversion at
cache.c:157-163 name the on-disk file by the 32-char hex fingerprint of the
key (md5.c is not among the sources).  Spec §1 treats the fingerprint as an
opaque value consumed only as bytes, and §9 notes it is used only to derive
the filename, so we model the naming function by the key itself — like the
hex digest, a deterministic function of the key. -/
def cache_entry_path_of (dir key : String) : String := dir ++ "/" ++ key

def findEntry (es : List CacheEntryRec) (k : String) : Option CacheEntryRec :=
  es.find? (fun e => e.key == k)

def updateEntry : List CacheEntryRec → String →
    (CacheEntryRec → CacheEntryRec) → List CacheEntryRec
  | [], _, _ => []
  | e :: t, k, f => if e.key == k then f e :: t else e :: updateEntry t k f

/-- cache_init (cache.c:71): empty table, zero users.  (The on-disk
directory may pre-exist; claims about fresh caches start from an empty
model directory as well.) -/
def cache_init (dir : String) (ttl : Nat) : CacheState :=
  { dir := dir, ttl := ttl, entries := [], fs := [], num_users := 0 }

/-- cache_set (cache.c:334): NULL entry / NULL data / zero size give -1
without writing; otherwise the data is written to the entry's file
(truncating create). -/
def cache_set (fs : FileSys) (path : String) (data : List Char) : FileSys × Int :=
  if data.length = 0 then (fs, -1)
  else (fsWrite fs path data, 0)

/-- The coordination loop of cache_get (cache.c:211-252), run by a single
worker while no other worker interleaves (the sequential executions the
round-trip claims describe).  Each iteration takes the mutex, reads the
status and either exits the loop (returning the state and the
synchronize_local_copy flag) or retries after sleep(1).  A state that can
only retry without change spins forever; fuel exhaustion returns none for
such divergence.  The entry was inserted before the loop and is never
removed, so the lookup cannot miss (none for the unreachable case). -/
def cache_get_loop (fuel : Nat) (st : CacheState) (key : String) (now : Nat) :
    Option (CacheState × Bool) :=
  match fuel with
  | 0 => none
  | fuel + 1 =>
    match findEntry st.entries key with
    | none => none
    | some e =>
      match e.status with
      | .ok =>
        if (now : Int) - (e.timestamp : Int) > (st.ttl : Int) then
          cache_get_loop fuel
            { st with entries :=
                (updateEntry st.entries key
                  (fun x => { x with status := .invalid })) } key now
        else
          some ({ st with entries :=
              (updateEntry st.entries key
                (fun x => { x with num_users := x.num_users + 1 })) }, false)
      | .inProgress => cache_get_loop fuel st key now
      | .invalid =>
        if e.num_users = 1 then
          some ({ st with entries :=
              (updateEntry st.entries key
                (fun x => { x with num_users := x.num_users + 1,
                                   status := .inProgress })) }, true)
        else cache_get_loop fuel st key now

/-- Everything a cache_get call returns or leaves behind: the new cache
state, the bytes copied out (into the freshly malloc'd buffer, see the heap
model below), the *size_out value, the return code, and how many times the
caller's resolver ran. -/
structure CacheGetResult where
  st : CacheState
  bytes : List Char
  size_out : Nat
  ret : Int
  resolver_calls : Nat
deriving DecidableEq, Repr

/-- The first critical section of cache_get (cache.c:175-207): find or
create the entry (a fresh record starts INVALID with a touched empty file
and is prepended at the bucket head), then increment the cache-wide and the
entry user counts. -/
def cache_enter_cs (st : CacheState) (key : String) : CacheState :=
  let path := cache_entry_path_of st.dir key
  let st1 :=
    match findEntry st.entries key with
    | some _ => st
    | none =>
      { st with
          fs := fsWrite st.fs path [],
          entries := ⟨key, path, .invalid, 0, 0⟩ :: st.entries }
  { st1 with
      num_users := st1.num_users + 1,
      entries :=
        (updateEntry st1.entries key
          (fun x => { x with num_users := x.num_users + 1 })) }

/-- The last critical section of cache_get (cache.c:313-321): decrement the
entry and cache user counts after the read path. -/
def cache_exit_cs (st : CacheState) (key : String) : CacheState :=
  { st with
      num_users := st.num_users - 1,
      entries :=
        (updateEntry st.entries key
          (fun x => { x with num_users := x.num_users - 1 })) }

/-- cache_get (cache.c:139-323) for one worker running without
interleaving: find-or-create the entry and take the user counts
(cache_enter_cs), run the coordination loop, resolve if this worker claimed
the entry (the resolver may only touch the file system; afterwards the
entry is marked OK with a fresh timestamp), read the entry's file back,
copy it out, and release the user counts (cache_exit_cs). -/
def cache_get (fuel : Nat) (st : CacheState) (now : Nat) (key : String)
    (resolver : String → FileSys → FileSys) : Option CacheGetResult :=
  let path := cache_entry_path_of st.dir key
  let st2 := cache_enter_cs st key
  match cache_get_loop fuel st2 key now with
  | none => none
  | some (st3, sync) =>
    let st4 :=
      if sync then
        { st3 with
            fs := resolver path st3.fs,
            entries :=
              (updateEntry st3.entries key
                (fun x => { x with status := .ok, timestamp := now })) }
      else st3
    match fsRead st4.fs path with
    | none => none
    | some contents =>
      some ⟨cache_exit_cs st4 key, contents, contents.length, 0,
            if sync then 1 else 0⟩

/-- proxy_cache_miss_resolver (part_001:251-276): fetch the origin response
for the request (its raw bytes modelled as the fixed byte string the origin
serves) and store it with cache_set. -/
def proxy_cache_miss_resolver (bytes : List Char) :
    String → FileSys → FileSys :=
  fun path fs => (cache_set fs path bytes).1

end NSProxy

namespace NSProxy

/-! ## Lemmas about the cache entry table -/

def entryUsersL (es : List CacheEntryRec) (key : String) : Int :=
  ((findEntry es key).map CacheEntryRec.num_users).getD 0

theorem findEntry_cons (e : CacheEntryRec) (t : List CacheEntryRec) (k : String) :
    findEntry (e :: t) k = if e.key = k then some e else findEntry t k := by
  by_cases hk : e.key = k
  · simp [findEntry, List.find?_cons_of_pos, hk]
  · simp [findEntry, List.find?_cons_of_neg, hk]

theorem updateEntry_cons (e : CacheEntryRec) (t : List CacheEntryRec) (k : String)
    (f : CacheEntryRec → CacheEntryRec) :
    updateEntry (e :: t) k f =
      if e.key = k then f e :: t else e :: updateEntry t k f := by
  by_cases hk : e.key = k
  · simp [updateEntry, hk]
  · simp [updateEntry, hk]

theorem findEntry_update (es : List CacheEntryRec) (k : String)
    (f : CacheEntryRec → CacheEntryRec) (hf : ∀ e, (f e).key = e.key) :
    findEntry (updateEntry es k f) k = (findEntry es k).map f := by
  induction es with
  | nil => simp [updateEntry, findEntry]
  | cons e t ih =>
    rw [updateEntry_cons, findEntry_cons]
    by_cases hk : e.key = k
    · rw [if_pos hk, if_pos hk, findEntry_cons, if_pos (by rw [hf]; exact hk)]
      rfl
    · rw [if_neg hk, if_neg hk, findEntry_cons, if_neg hk, ih]

/-- During the coordination loop the entry this worker registered on gains
exactly one more user by the time the loop exits, and the loop touches
neither the cache-wide user count nor the file system. -/
theorem loop_users (fuel : Nat) (st : CacheState) (key : String) (now : Nat)
    (st' : CacheState) (sync : Bool)
    (h : cache_get_loop fuel st key now = some (st', sync)) :
    entryUsersL st'.entries key = entryUsersL st.entries key + 1 ∧
    st'.num_users = st.num_users ∧ st'.fs = st.fs := by
  induction fuel generalizing st with
  | zero => exact absurd h (by simp [cache_get_loop])
  | succ fuel ih =>
    rw [cache_get_loop] at h
    split at h
    · exact absurd h (by simp)
    · rename_i e hf
      split at h
      · -- status OK
        rename_i hs
        split at h
        · -- expired: status set to INVALID, retry
          have hres := ih _ h
          refine ⟨?_, hres.2.1, hres.2.2⟩
          rw [hres.1]
          have hupd := findEntry_update st.entries key
            (fun x => { x with status := CacheEntryStatus.invalid })
            (fun x => rfl)
          simp [entryUsersL, hupd, hf]
        · -- fresh: take another use, leave the loop
          simp only [Option.some.injEq, Prod.mk.injEq] at h
          obtain ⟨h1, h2⟩ := h
          subst h1
          have hupd := findEntry_update st.entries key
            (fun x => { x with num_users := x.num_users + 1 })
            (fun x => rfl)
          simp [entryUsersL, hupd, hf]
      · -- status IN_PROGRESS: spin
        exact ih _ h
      · -- status INVALID
        rename_i hs
        split at h
        · -- sole user: claim the entry
          simp only [Option.some.injEq, Prod.mk.injEq] at h
          obtain ⟨h1, h2⟩ := h
          subst h1
          have hupd := findEntry_update st.entries key
            (fun x => { x with num_users := x.num_users + 1,
                               status := CacheEntryStatus.inProgress })
            (fun x => rfl)
          simp [entryUsersL, hupd, hf]
        · -- contended: spin
          exact ih _ h

/-- A successful loop exit leaves the entry present in the table. -/
theorem loop_presence (fuel : Nat) (st : CacheState) (key : String) (now : Nat)
    (st' : CacheState) (sync : Bool)
    (h : cache_get_loop fuel st key now = some (st', sync)) :
    ∃ e', findEntry st'.entries key = some e' := by
  induction fuel generalizing st with
  | zero => exact absurd h (by simp [cache_get_loop])
  | succ fuel ih =>
    rw [cache_get_loop] at h
    split at h
    · exact absurd h (by simp)
    · rename_i e hf
      split at h
      · rename_i hs
        split at h
        · exact ih _ h
        · simp only [Option.some.injEq, Prod.mk.injEq] at h
          obtain ⟨h1, h2⟩ := h
          subst h1
          have hupd := findEntry_update st.entries key
            (fun x => { x with num_users := x.num_users + 1 })
            (fun x => rfl)
          exact ⟨{ e with num_users := e.num_users + 1 }, by simp [hupd, hf]⟩
      · exact ih _ h
      · rename_i hs
        split at h
        · simp only [Option.some.injEq, Prod.mk.injEq] at h
          obtain ⟨h1, h2⟩ := h
          subst h1
          have hupd := findEntry_update st.entries key
            (fun x => { x with num_users := x.num_users + 1,
                               status := CacheEntryStatus.inProgress })
            (fun x => rfl)
          exact ⟨{ e with num_users := e.num_users + 1,
                          status := CacheEntryStatus.inProgress },
                 by simp [hupd, hf]⟩
        · exact ih _ h

/-- The entry user count after the read-path decrement at cache.c:313-321,
for either value of synchronize_local_copy. -/
theorem entryUsersL_after_read (st3 : CacheState) (key : String) (now : Nat)
    (resolver : String → FileSys → FileSys) (path : String) (sync : Bool)
    (e3 : CacheEntryRec) (he3 : findEntry st3.entries key = some e3) :
    entryUsersL
      (updateEntry
        (if sync = true then
          { st3 with
              fs := resolver path st3.fs,
              entries :=
                (updateEntry st3.entries key
                  (fun x => { x with status := CacheEntryStatus.ok,
                                     timestamp := now })) }
        else st3).entries key
        (fun x => { x with num_users := x.num_users - 1 })) key
      = e3.num_users - 1 := by
  cases sync with
  | true =>
    have hstat := findEntry_update st3.entries key
      (fun x => { x with status := CacheEntryStatus.ok, timestamp := now })
      (fun x => rfl)
    have hdecu := findEntry_update
      (updateEntry st3.entries key
        (fun x => { x with status := CacheEntryStatus.ok, timestamp := now }))
      key (fun x => { x with num_users := x.num_users - 1 }) (fun x => rfl)
    simp [entryUsersL, hdecu, hstat, he3]
  | false =>
    have hdecu := findEntry_update st3.entries key
      (fun x => { x with num_users := x.num_users - 1 }) (fun x => rfl)
    simp [entryUsersL, hdecu, he3]

/-- Claim C2: starting from a fresh cache, a cacheable GET fetched twice
with the same key within the TTL resolves exactly once — the first call
claims the stale entry and runs the resolver, whose cache_set bytes are
what both calls return; the second call hits the FRESH entry and the
resolver does not run. -/
theorem C2_second_get_hits_cache (dir key : String) (bytes : List Char)
    (ttl now1 now2 f1 f2 : Nat)
    (hb : bytes ≠ []) (httl : now2 - now1 ≤ ttl) (h12 : now1 ≤ now2) :
    ∃ r1 r2 : CacheGetResult,
      cache_get (f1 + 1) (cache_init dir ttl) now1 key
          (proxy_cache_miss_resolver bytes) = some r1 ∧
      cache_get (f2 + 1) r1.st now2 key
          (proxy_cache_miss_resolver bytes) = some r2 ∧
      r1.resolver_calls = 1 ∧ r2.resolver_calls = 0 ∧
      r1.bytes = bytes ∧ r2.bytes = bytes ∧ r1.ret = 0 ∧ r2.ret = 0 := by
  have hI : ¬ ((now2 : Int) - (now1 : Int) > (ttl : Int)) := by omega
  refine ⟨⟨⟨dir, ttl, [⟨key, cache_entry_path_of dir key, .ok, 1, now1⟩],
            [(cache_entry_path_of dir key, bytes)], 0⟩,
           bytes, bytes.length, 0, 1⟩,
          ⟨⟨dir, ttl, [⟨key, cache_entry_path_of dir key, .ok, 2, now1⟩],
            [(cache_entry_path_of dir key, bytes)], 0⟩,
           bytes, bytes.length, 0, 0⟩,
          ?_, ?_, rfl, rfl, rfl, rfl, rfl, rfl⟩
  · simp [cache_get, cache_get_loop, cache_enter_cs, cache_exit_cs,
      cache_init, findEntry, updateEntry, fsWrite, fsRead, cache_set,
      proxy_cache_miss_resolver, hb]
  · simp [cache_get, cache_get_loop, cache_enter_cs, cache_exit_cs,
      findEntry, updateEntry, fsWrite, fsRead, cache_set,
      proxy_cache_miss_resolver, hb, hI]

/-- Witness for C2_second_get_hits_cache at a concrete run. -/
theorem C2_witness :
    ∃ r1 r2 : CacheGetResult,
      cache_get 2 (cache_init "cache" 60) 100 "k"
          (proxy_cache_miss_resolver ("HELLO").data) = some r1 ∧
      cache_get 2 r1.st 150 "k"
          (proxy_cache_miss_resolver ("HELLO").data) = some r2 ∧
      r1.resolver_calls = 1 ∧ r2.resolver_calls = 0 ∧
      r1.bytes = ("HELLO").data ∧ r2.bytes = ("HELLO").data ∧
      r1.ret = 0 ∧ r2.ret = 0 :=
  C2_second_get_hits_cache "cache" "k" ("HELLO").data 60 100 150 1 1
    (by decide) (by decide) (by decide)

/-- Claim C10: every successful cache_get performs two increments and one
decrement of the entry's user count (one at registration, one in the
coordination loop on the FRESH-use or STALE-claim exit, one after the read
path), so the count ends exactly one above its starting value and, the
starting value being non-negative, never returns to zero once the entry has
been used. -/
theorem C10_num_users_net_increment (fuel : Nat) (st : CacheState) (now : Nat)
    (key : String) (resolver : String → FileSys → FileSys) (r : CacheGetResult)
    (h : cache_get fuel st now key resolver = some r) :
    r.ret = 0 ∧
    entryUsersL r.st.entries key = entryUsersL st.entries key + 1 ∧
    (0 ≤ entryUsersL st.entries key → 1 ≤ entryUsersL r.st.entries key) := by
  cases hfind : findEntry st.entries key with
  | some e0 =>
    simp only [cache_get, cache_enter_cs, hfind] at h
    split at h
    · exact absurd h (by simp)
    · rename_i pair st3 sync hloop
      have husers := loop_users fuel _ key now st3 sync hloop
      obtain ⟨e3, he3⟩ := loop_presence fuel _ key now st3 sync hloop
      have hbump := findEntry_update st.entries key
        (fun x => { x with num_users := x.num_users + 1 }) (fun x => rfl)
      have he3u : e3.num_users = entryUsersL st.entries key + 2 := by
        have h1 := husers.1
        simp only [entryUsersL, he3, hbump, hfind, Option.map_some',
          Option.getD_some] at h1
        simp only [entryUsersL, hfind, Option.map_some', Option.getD_some]
        omega
      split at h
      · exact absurd h (by simp)
      · rename_i contents hread
        simp only [Option.some.injEq] at h
        subst h
        dsimp only [cache_exit_cs]
        have hfin := entryUsersL_after_read st3 key now resolver
          (cache_entry_path_of st.dir key) sync e3 he3
        refine ⟨rfl, ?_, ?_⟩
        · rw [hfin]
          omega
        · intro h0
          rw [hfin]
          omega
  | none =>
    simp only [cache_get, cache_enter_cs, hfind] at h
    split at h
    · exact absurd h (by simp)
    · rename_i pair st3 sync hloop
      have husers := loop_users fuel _ key now st3 sync hloop
      obtain ⟨e3, he3⟩ := loop_presence fuel _ key now st3 sync hloop
      have he3u : e3.num_users = entryUsersL st.entries key + 2 := by
        have h1 := husers.1
        rw [entryUsersL, he3] at h1
        simp only [entryUsersL, hfind]
        have hcons : updateEntry
            (⟨key, cache_entry_path_of st.dir key,
              CacheEntryStatus.invalid, 0, 0⟩ :: st.entries) key
            (fun x => { x with num_users := x.num_users + 1 })
            = ⟨key, cache_entry_path_of st.dir key,
                CacheEntryStatus.invalid, 1, 0⟩ :: st.entries := by
          rw [updateEntry_cons, if_pos rfl]
          simp
        rw [hcons] at h1
        rw [entryUsersL, findEntry_cons, if_pos rfl] at h1
        simp only [Option.map_some', Option.getD_some] at h1
        simp only [Option.getD_none, Option.map_none']
        omega
      split at h
      · exact absurd h (by simp)
      · rename_i contents hread
        simp only [Option.some.injEq] at h
        subst h
        dsimp only [cache_exit_cs]
        have hfin := entryUsersL_after_read st3 key now resolver
          (cache_entry_path_of st.dir key) sync e3 he3
        refine ⟨rfl, ?_, ?_⟩
        · rw [hfin]
          omega
        · intro h0
          rw [hfin]
          omega

/-- Witness for C10_num_users_net_increment at a concrete run. -/
theorem C10_witness :
    1 ≤ entryUsersL
        (⟨⟨"cache", 60, [⟨"k", "cache/k", .ok, 1, 100⟩],
          [("cache/k", ("HELLO").data)], 0⟩,
         ("HELLO").data, 5, 0, 1⟩ : CacheGetResult).st.entries "k" :=
  (C10_num_users_net_increment 2 (cache_init "cache" 60) 100 "k"
    (proxy_cache_miss_resolver ("HELLO").data)
    ⟨⟨"cache", 60, [⟨"k", "cache/k", .ok, 1, 100⟩],
      [("cache/k", ("HELLO").data)], 0⟩,
     ("HELLO").data, 5, 0, 1⟩ (by decide)).2.2 (by decide)

end NSProxy

namespace NSProxy

/-! ## The entry state machine under concurrency (claim C3)

Every mutation of the cache index or an entry's fields in cache.c happens
inside a sem_wait(&cache->mutex) ... sem_post critical section; concurrent
workers therefore interleave whole critical sections.  CacheStep lists the
critical sections of cache_get as atomic transitions on the shared state
(plus the resolver's cache_set, which runs outside the mutex but touches
only the file system); a reachable state is one produced from cache_init by
any interleaving of such sections. -/

def countEntriesKey (es : List CacheEntryRec) (k : String) : Nat :=
  (es.filter (fun e => e.key == k)).length

def countInProgressKey (es : List CacheEntryRec) (k : String) : Nat :=
  ((es.filter (fun e => e.key == k)).filter
    (fun e => e.status == CacheEntryStatus.inProgress)).length

inductive CacheStep : CacheState → CacheState → Prop where
  | enter (st : CacheState) (key : String) :
      -- cache.c:175-207, the find-or-create + double increment section
      CacheStep st (cache_enter_cs st key)
  | loopOkFresh (st : CacheState) (key : String) (e : CacheEntryRec) (now : Nat)
      (hf : findEntry st.entries key = some e)
      (hs : e.status = CacheEntryStatus.ok)
      (hfresh : ¬ ((now : Int) - (e.timestamp : Int) > (st.ttl : Int))) :
      -- cache.c:216-226, OK and within ttl: take a use
      CacheStep st
        { st with entries := (updateEntry st.entries key
            (fun x => { x with num_users := x.num_users + 1 })) }
  | loopOkExpired (st : CacheState) (key : String) (e : CacheEntryRec) (now : Nat)
      (hf : findEntry st.entries key = some e)
      (hs : e.status = CacheEntryStatus.ok)
      (hexp : (now : Int) - (e.timestamp : Int) > (st.ttl : Int)) :
      -- cache.c:219-222, OK but expired: invalidate
      CacheStep st
        { st with entries := (updateEntry st.entries key
            (fun x => { x with status := CacheEntryStatus.invalid })) }
  | loopClaim (st : CacheState) (key : String) (e : CacheEntryRec)
      (hf : findEntry st.entries key = some e)
      (hs : e.status = CacheEntryStatus.invalid)
      (hu : e.num_users = 1) :
      -- cache.c:231-238, INVALID with this worker as only user: claim it
      CacheStep st
        { st with entries := (updateEntry st.entries key
            (fun x => { x with num_users := x.num_users + 1,
                               status := CacheEntryStatus.inProgress })) }
  | resolveDone (st : CacheState) (key : String) (e : CacheEntryRec) (now : Nat)
      (hf : findEntry st.entries key = some e)
      (hs : e.status = CacheEntryStatus.inProgress) :
      -- cache.c:263-266, the claiming worker publishes the resolved entry
      CacheStep st
        { st with entries := (updateEntry st.entries key
            (fun x => { x with status := CacheEntryStatus.ok,
                               timestamp := now })) }
  | resolverWrite (st : CacheState) (path : String) (bytes : List Char) :
      -- cache_set called from the resolver (cache.c:334-368), outside the
      -- mutex; it touches only the file system
      CacheStep st { st with fs := fsWrite st.fs path bytes }
  | exitDec (st : CacheState) (key : String) :
      -- cache.c:313-321, release after the read path
      CacheStep st (cache_exit_cs st key)

inductive ReachableCache : CacheState → Prop where
  | init (dir : String) (ttl : Nat) : ReachableCache (cache_init dir ttl)
  | step {st st' : CacheState} :
      ReachableCache st → CacheStep st st' → ReachableCache st'

def KeysNodup (st : CacheState) : Prop :=
  (st.entries.map CacheEntryRec.key).Nodup

theorem updateEntry_map_key (es : List CacheEntryRec) (k : String)
    (f : CacheEntryRec → CacheEntryRec) (hf : ∀ e, (f e).key = e.key) :
    (updateEntry es k f).map CacheEntryRec.key = es.map CacheEntryRec.key := by
  induction es with
  | nil => simp [updateEntry]
  | cons e t ih =>
    rw [updateEntry_cons]
    by_cases hk : e.key = k
    · rw [if_pos hk]
      simp [hf]
    · rw [if_neg hk]
      simp [ih]

theorem findEntry_none_keys (es : List CacheEntryRec) (k : String)
    (h : findEntry es k = none) : ∀ e ∈ es, e.key ≠ k := by
  intro e he
  have := List.find?_eq_none.mp h e he
  simpa using this

theorem nodup_updateEntry (es : List CacheEntryRec) (k : String)
    (f : CacheEntryRec → CacheEntryRec) (hf : ∀ e, (f e).key = e.key)
    (h : (es.map CacheEntryRec.key).Nodup) :
    ((updateEntry es k f).map CacheEntryRec.key).Nodup := by
  rw [updateEntry_map_key es k f hf]
  exact h

theorem step_preserves_nodup (st st' : CacheState) (h : CacheStep st st') :
    KeysNodup st → KeysNodup st' := by
  intro hn
  cases h with
  | enter key =>
    unfold KeysNodup cache_enter_cs
    cases hfind : findEntry st.entries key with
    | some e0 =>
      simp only [hfind]
      exact nodup_updateEntry _ _ _ (fun x => rfl) hn
    | none =>
      simp only [hfind]
      refine nodup_updateEntry _ _ _ (fun x => rfl) ?_
      simp only [List.map_cons]
      rw [List.nodup_cons]
      refine ⟨?_, hn⟩
      intro hmem
      obtain ⟨e, hemem, hekey⟩ := List.mem_map.mp hmem
      exact findEntry_none_keys st.entries key hfind e hemem hekey
  | loopOkFresh key e now hf hs hfresh =>
    exact nodup_updateEntry _ _ _ (fun x => rfl) hn
  | loopOkExpired key e now hf hs hexp =>
    exact nodup_updateEntry _ _ _ (fun x => rfl) hn
  | loopClaim key e hf hs hu =>
    exact nodup_updateEntry _ _ _ (fun x => rfl) hn
  | resolveDone key e now hf hs =>
    exact nodup_updateEntry _ _ _ (fun x => rfl) hn
  | resolverWrite path bytes => exact hn
  | exitDec key =>
    exact nodup_updateEntry _ _ _ (fun x => rfl) hn

theorem reachable_nodup (st : CacheState) (h : ReachableCache st) :
    KeysNodup st := by
  induction h with
  | init dir ttl => simp [KeysNodup, cache_init]
  | step hr hstep ih => exact step_preserves_nodup _ _ hstep ih

theorem countEntriesKey_eq_zero (es : List CacheEntryRec) (k : String)
    (h : ∀ e ∈ es, e.key ≠ k) : countEntriesKey es k = 0 := by
  unfold countEntriesKey
  rw [List.length_eq_zero, List.filter_eq_nil_iff]
  intro e he
  simpa using h e he

theorem countEntriesKey_le_one (es : List CacheEntryRec)
    (h : (es.map CacheEntryRec.key).Nodup) (k : String) :
    countEntriesKey es k ≤ 1 := by
  induction es with
  | nil => simp [countEntriesKey]
  | cons e t ih =>
    simp only [List.map_cons, List.nodup_cons] at h
    by_cases hk : e.key = k
    · have hz : countEntriesKey t k = 0 := by
        refine countEntriesKey_eq_zero t k ?_
        intro x hx hxk
        exact h.1 (List.mem_map.mpr ⟨x, hx, by rw [hxk, hk]⟩)
      simp only [countEntriesKey, List.filter_cons] at *
      simp [hk, hz]
    · simp only [countEntriesKey, List.filter_cons]
      simp only [show (e.key == k) = false by simpa using hk]
      exact ih h.2


theorem findEntry_update_other (es : List CacheEntryRec) (k : String)
    (f : CacheEntryRec → CacheEntryRec) (q : String) (hq : q ≠ k)
    (hf : ∀ e, (f e).key = e.key) :
    findEntry (updateEntry es k f) q = findEntry es q := by
  induction es with
  | nil => simp [updateEntry]
  | cons e t ih =>
    rw [updateEntry_cons]
    by_cases hk : e.key = k
    · have h2 : ¬ (e.key = q) := by rw [hk]; exact Ne.symm hq
      rw [if_pos hk, findEntry_cons, findEntry_cons,
        if_neg (by rw [hf]; exact h2), if_neg h2]
    · rw [if_neg hk, findEntry_cons, findEntry_cons]
      by_cases hq2 : e.key = q
      · rw [if_pos hq2, if_pos hq2]
      · rw [if_neg hq2, if_neg hq2, ih]

theorem findEntry_enter_cs_self (st : CacheState) (key : String) :
    findEntry (cache_enter_cs st key).entries key =
      match findEntry st.entries key with
      | some e0 => some { e0 with num_users := e0.num_users + 1 }
      | none => some ⟨key, cache_entry_path_of st.dir key,
          CacheEntryStatus.invalid, 1, 0⟩ := by
  unfold cache_enter_cs
  cases hfind : findEntry st.entries key with
  | some e0 =>
    simp only [hfind]
    rw [findEntry_update st.entries key
      (fun x => { x with num_users := x.num_users + 1 }) (fun x => rfl), hfind]
    rfl
  | none =>
    simp only [hfind]
    rw [updateEntry_cons, if_pos rfl, findEntry_cons, if_pos rfl]
    simp

theorem findEntry_enter_cs_other (st : CacheState) (key q : String)
    (hq : q ≠ key) :
    findEntry (cache_enter_cs st key).entries q = findEntry st.entries q := by
  unfold cache_enter_cs
  cases hfind : findEntry st.entries key with
  | some e0 =>
    simp only [hfind]
    exact findEntry_update_other st.entries key _ q hq (fun x => rfl)
  | none =>
    simp only [hfind]
    rw [updateEntry_cons, if_pos rfl, findEntry_cons,
      if_neg (by simpa using Ne.symm hq)]

/-- Any step that leaves an entry IN_PROGRESS either found it already
IN_PROGRESS or is the claiming transition from an INVALID (stale) entry
whose only registered user is the claiming worker. -/
theorem step_into_inProgress (st st' : CacheState) (h : CacheStep st st')
    (k : String) (e' : CacheEntryRec)
    (hf' : findEntry st'.entries k = some e')
    (hs' : e'.status = CacheEntryStatus.inProgress) :
    (∃ e, findEntry st.entries k = some e ∧
        e.status = CacheEntryStatus.inProgress) ∨
    (∃ e, findEntry st.entries k = some e ∧
        e.status = CacheEntryStatus.invalid ∧ e.num_users = 1) := by
  cases h with
  | enter key =>
    by_cases hk : k = key
    · subst hk
      rw [findEntry_enter_cs_self] at hf'
      cases hfind : findEntry st.entries k with
      | some e0 =>
        rw [hfind] at hf'
        simp only [Option.some.injEq] at hf'
        subst hf'
        left
        exact ⟨e0, rfl, by simpa using hs'⟩
      | none =>
        rw [hfind] at hf'
        simp only [Option.some.injEq] at hf'
        subst hf'
        simp at hs'
    · rw [findEntry_enter_cs_other st key k hk] at hf'
      left
      exact ⟨e', hf', hs'⟩
  | loopOkFresh key e now hf hs hfresh =>
    by_cases hk : k = key
    · subst hk
      dsimp only at hf'
      rw [findEntry_update st.entries k
        (fun x => { x with num_users := x.num_users + 1 }) (fun x => rfl),
        hf] at hf'
      simp only [Option.map_some', Option.some.injEq] at hf'
      subst hf'
      left
      exact ⟨e, hf, by simpa using hs'⟩
    · dsimp only at hf'
      rw [findEntry_update_other st.entries key
        (fun x => { x with num_users := x.num_users + 1 }) k hk
        (fun x => rfl)] at hf'
      left
      exact ⟨e', hf', hs'⟩
  | loopOkExpired key e now hf hs hexp =>
    by_cases hk : k = key
    · subst hk
      dsimp only at hf'
      rw [findEntry_update st.entries k
        (fun x => { x with status := CacheEntryStatus.invalid })
        (fun x => rfl), hf] at hf'
      simp only [Option.map_some', Option.some.injEq] at hf'
      subst hf'
      simp at hs'
    · dsimp only at hf'
      rw [findEntry_update_other st.entries key
        (fun x => { x with status := CacheEntryStatus.invalid }) k hk
        (fun x => rfl)] at hf'
      left
      exact ⟨e', hf', hs'⟩
  | loopClaim key e hf hs hu =>
    by_cases hk : k = key
    · subst hk
      right
      exact ⟨e, hf, hs, hu⟩
    · dsimp only at hf'
      rw [findEntry_update_other st.entries key
        (fun x => { x with num_users := x.num_users + 1,
                           status := CacheEntryStatus.inProgress }) k hk
        (fun x => rfl)] at hf'
      left
      exact ⟨e', hf', hs'⟩
  | resolveDone key e now hf hs =>
    by_cases hk : k = key
    · subst hk
      dsimp only at hf'
      rw [findEntry_update st.entries k
        (fun x => { x with status := CacheEntryStatus.ok, timestamp := now })
        (fun x => rfl), hf] at hf'
      simp only [Option.map_some', Option.some.injEq] at hf'
      subst hf'
      simp at hs'
    · dsimp only at hf'
      rw [findEntry_update_other st.entries key
        (fun x => { x with status := CacheEntryStatus.ok, timestamp := now })
        k hk (fun x => rfl)] at hf'
      left
      exact ⟨e', hf', hs'⟩
  | resolverWrite path bytes =>
    left
    exact ⟨e', hf', hs'⟩
  | exitDec key =>
    by_cases hk : k = key
    · subst hk
      unfold cache_exit_cs at hf'
      dsimp only at hf'
      rw [findEntry_update st.entries k
        (fun x => { x with num_users := x.num_users - 1 })
        (fun x => rfl)] at hf'
      cases hfind : findEntry st.entries k with
      | some e0 =>
        rw [hfind] at hf'
        simp only [Option.map_some', Option.some.injEq] at hf'
        subst hf'
        left
        exact ⟨e0, rfl, by simpa using hs'⟩
      | none =>
        rw [hfind] at hf'
        simp at hf'
    · unfold cache_exit_cs at hf'
      dsimp only at hf'
      rw [findEntry_update_other st.entries key
        (fun x => { x with num_users := x.num_users - 1 }) k hk
        (fun x => rfl)] at hf'
      left
      exact ⟨e', hf', hs'⟩

/-- Claim C3: in every reachable cache state each key occupies at most one
entry record of the table, hence at most one entry per key is IN_FLIGHT at
any instant; and the only transition that puts an entry into IN_FLIGHT
(CACHE_ENTRY_STATUS_IN_PROGRESS) is the claiming worker's mutex-protected
move of that entry out of the STALE (INVALID) state while it is the sole
registered user. -/
theorem C3_single_flight_invariant :
    (∀ st : CacheState, ReachableCache st → ∀ k : String,
        countEntriesKey st.entries k ≤ 1 ∧
        countInProgressKey st.entries k ≤ 1) ∧
    (∀ st st' : CacheState, CacheStep st st' →
      ∀ (k : String) (e' : CacheEntryRec),
        findEntry st'.entries k = some e' →
        e'.status = CacheEntryStatus.inProgress →
        (∃ e, findEntry st.entries k = some e ∧
            e.status = CacheEntryStatus.inProgress) ∨
        (∃ e, findEntry st.entries k = some e ∧
            e.status = CacheEntryStatus.invalid ∧ e.num_users = 1)) := by
  constructor
  · intro st hreach k
    have hn := reachable_nodup st hreach
    have h1 := countEntriesKey_le_one st.entries hn k
    refine ⟨h1, ?_⟩
    calc countInProgressKey st.entries k
        ≤ countEntriesKey st.entries k := List.length_filter_le _ _
      _ ≤ 1 := h1
  · exact step_into_inProgress

/-- Witness for C3_single_flight_invariant: the empty initial cache, and
the claiming transition on a one-entry table. -/
theorem C3_witness :
    countEntriesKey (cache_init "cache" 60).entries "k" ≤ 1 ∧
    ((∃ e, findEntry [(⟨"k", "cache/k", CacheEntryStatus.invalid, 1, 0⟩ :
          CacheEntryRec)] "k" = some e ∧
        e.status = CacheEntryStatus.inProgress) ∨
     (∃ e, findEntry [(⟨"k", "cache/k", CacheEntryStatus.invalid, 1, 0⟩ :
          CacheEntryRec)] "k" = some e ∧
        e.status = CacheEntryStatus.invalid ∧ e.num_users = 1)) :=
  ⟨(C3_single_flight_invariant.1 _ (ReachableCache.init "cache" 60) "k").1,
   C3_single_flight_invariant.2
     ⟨"cache", 60, [⟨"k", "cache/k", CacheEntryStatus.invalid, 1, 0⟩], [], 1⟩
     _
     (CacheStep.loopClaim
       ⟨"cache", 60, [⟨"k", "cache/k", CacheEntryStatus.invalid, 1, 0⟩], [], 1⟩
       "k" ⟨"k", "cache/k", CacheEntryStatus.invalid, 1, 0⟩
       (by decide) rfl rfl)
     "k" ⟨"k", "cache/k", CacheEntryStatus.inProgress, 2, 0⟩
     (by decide) rfl⟩

end NSProxy

namespace NSProxy

/-! ## The output path of cache_get (claim C4)

C passes char *data_out by value: the assignment at cache.c:309
(data_out = malloc(cache_entry->size)) rebinds cache_get's LOCAL parameter
to a fresh block, the memcpy at cache.c:310 fills that fresh block, and
cache.c:311 stores the size through size_out.  Nothing is ever written
through the pointer value the caller passed in.  A small allocator heap
makes the aliasing explicit. -/

structure Heap where
  blocks : List (Nat × List Char)
  nextAddr : Nat
deriving DecidableEq, Repr

def hRead (h : Heap) (a : Nat) : Option (List Char) :=
  (h.blocks.find? (fun b => b.1 == a)).map Prod.snd

def hWriteBlocks : List (Nat × List Char) → Nat → List Char →
    List (Nat × List Char)
  | [], a, d => [(a, d)]
  | b :: t, a, d => if b.1 == a then (a, d) :: t else b :: hWriteBlocks t a d

def hWrite (h : Heap) (a : Nat) (d : List Char) : Heap :=
  { h with blocks := hWriteBlocks h.blocks a d }

/-- malloc: a fresh address holding indeterminate bytes. -/
def hMalloc (h : Heap) (n : Nat) : Heap × Nat :=
  ({ blocks := (h.nextAddr, List.replicate n (Char.ofNat 0)) :: h.blocks,
     nextAddr := h.nextAddr + 1 }, h.nextAddr)

/-- cache.c:305-311, given the bytes read from the entry's file: the local
data_out is rebound to a fresh malloc block, memcpy fills that block, and
the byte count goes out through size_out.  Result: (heap afterwards, the
local data_out pointer after the rebind, the *size_out value). -/
def cache_get_copy_out (h : Heap) (data_out : Nat) (contents : List Char) :
    Heap × Nat × Nat :=
  let pair := hMalloc h contents.length
  let h2 := hWrite pair.1 pair.2 contents
  (h2, pair.2, contents.length)

/-- On every successful return, *size_out is exactly the length of the
bytes cache_get copied out, and the return value is 0. -/
theorem cache_get_size_out (fuel : Nat) (st : CacheState) (now : Nat)
    (key : String) (resolver : String → FileSys → FileSys)
    (r : CacheGetResult) (h : cache_get fuel st now key resolver = some r) :
    r.size_out = r.bytes.length ∧ r.ret = 0 := by
  simp only [cache_get] at h
  split at h
  · exact absurd h (by simp)
  · rename_i pair st3 sync hloop
    split at h
    · exact absurd h (by simp)
    · rename_i contents hread
      simp only [Option.some.injEq] at h
      subst h
      exact ⟨rfl, rfl⟩

/-- Claim C4: for every successful cache_get, the cached bytes are copied
into a buffer freshly allocated inside cache_get and assigned only to the
local data_out parameter — the block the caller's pointer designates is
untouched, the local pointer now names a fresh address distinct from the
caller's, the fresh block holds the cached bytes, and the caller observes
only *size_out (which equals the length of the copied bytes, with return
value 0). -/
theorem C4_caller_buffer_untouched (h : Heap) (data_out : Nat)
    (contents : List Char) (hvalid : data_out < h.nextAddr) :
    hRead (cache_get_copy_out h data_out contents).1 data_out
        = hRead h data_out ∧
    (cache_get_copy_out h data_out contents).2.1 = h.nextAddr ∧
    (cache_get_copy_out h data_out contents).2.1 ≠ data_out ∧
    hRead (cache_get_copy_out h data_out contents).1
        (cache_get_copy_out h data_out contents).2.1 = some contents ∧
    (cache_get_copy_out h data_out contents).2.2 = contents.length ∧
    (∀ (fuel : Nat) (st : CacheState) (now : Nat) (key : String)
        (resolver : String → FileSys → FileSys) (r : CacheGetResult),
      cache_get fuel st now key resolver = some r →
        r.size_out = r.bytes.length ∧ r.ret = 0) := by
  have hblocks : (cache_get_copy_out h data_out contents).1.blocks
      = (h.nextAddr, contents) :: h.blocks := by
    unfold cache_get_copy_out hMalloc hWrite
    dsimp only
    rw [hWriteBlocks]
    simp
  refine ⟨?_, rfl, ?_, ?_, rfl, cache_get_size_out⟩
  · unfold hRead
    rw [hblocks]
    rw [List.find?_cons_of_neg _ (by simp; omega)]
  · show h.nextAddr ≠ data_out
    omega
  · show hRead (cache_get_copy_out h data_out contents).1 h.nextAddr
        = some contents
    unfold hRead
    rw [hblocks]
    rw [List.find?_cons_of_pos _ (by simp)]
    rfl

/-- Witness for C4_caller_buffer_untouched at a concrete heap: the caller's
buffer at address 0 still holds its old bytes after the copy-out. -/
theorem C4_witness :
    hRead (cache_get_copy_out ⟨[(0, ("old").data)], 1⟩ 0 ("HELLO").data).1 0
      = hRead ⟨[(0, ("old").data)], 1⟩ 0 :=
  (C4_caller_buffer_untouched ⟨[(0, ("old").data)], 1⟩ 0 ("HELLO").data
    (by decide)).1

end NSProxy
